import Mathlib

/-!
# Verification of the swarm fetch engine (`downloader.go`)

Shallow embedding of `NewTorrentDownloader` and
`(*TorrentDownloader).DownloadFromMagnet` from `downloader.go`.

The external swarm-transport library (`anacrolix/torrent`) and the clock are
modelled as an *environment*: a script saying which signal of the metadata
`select` fires first and, for each loop iteration, whether the 1-second
ticker or the context-done channel fires first, together with the values the
transport reads (`BytesCompleted`, `Length`, `PeerConns`, `Complete`) return
at that tick.  The embedded function replays the Go control flow over that
script and produces the list of observable items it performs, in order:
side-effecting calls (`DownloadAll`, invocations of the progress callback,
and — were it ever performed — a close/`Drop` of the torrent handle) and the
terminal return value `(path, err)` of the Go function.

Go `float64` arithmetic is modelled exactly for the operations the code
performs: the byte counters and durations that reach a division are integers
(resp. rationals) small enough to be represented exactly, so a finite value
is an exact rational, and division by zero follows IEEE-754 (0/0 = NaN,
x/0 = ±Inf), which is what Go's float division does — it never faults.
-/

/-- A Go `float64` value as produced by the arithmetic in `downloader.go`:
either an exactly-represented finite value, or NaN / ±Inf from a division
by zero (IEEE-754 semantics; Go float division never panics). -/
inductive GoFloat
  | finite (q : ℚ)
  | nan
  | posInf
  | negInf
deriving DecidableEq

/-- Go `float64` division `a / b` for finite operands `a`, `b`:
IEEE-754 gives NaN for `0/0` and ±Inf (sign of the numerator) for `x/0`. -/
def goDiv (a b : ℚ) : GoFloat :=
  if b = 0 then
    if a = 0 then GoFloat.nan
    else if 0 < a then GoFloat.posInf
    else GoFloat.negInf
  else GoFloat.finite (a / b)

/-- Go `float64` multiplication of a value by a positive finite constant
(the code only multiplies by the literal `100`): NaN and ±Inf are
preserved, a finite value is scaled exactly. -/
def goMulPos (x : GoFloat) (c : ℚ) : GoFloat :=
  match x with
  | GoFloat.finite q => GoFloat.finite (q * c)
  | GoFloat.nan => GoFloat.nan
  | GoFloat.posInf => GoFloat.posInf
  | GoFloat.negInf => GoFloat.negInf

/-- Go `<=` on `float64`: any comparison with NaN is `false`. -/
def GoFloat.le : GoFloat → GoFloat → Bool
  | GoFloat.nan, _ => false
  | _, GoFloat.nan => false
  | GoFloat.negInf, _ => true
  | _, GoFloat.negInf => false
  | GoFloat.finite a, GoFloat.finite b => a ≤ b
  | GoFloat.finite _, GoFloat.posInf => true
  | GoFloat.posInf, GoFloat.posInf => true
  | GoFloat.posInf, GoFloat.finite _ => false

/-- The expression `percentDone := float64(bytesCompleted) / float64(totalBytes) * 100`
exactly as written in the progress loop of `DownloadFromMagnet`
(`downloader.go`): the division is NOT guarded against `totalBytes = 0`. -/
def percentDoneOf (bytesCompleted totalBytes : ℤ) : GoFloat :=
  goMulPos (goDiv (bytesCompleted : ℚ) (totalBytes : ℚ)) 100

/-- The expression `downloadSpeed := float64(bytesDownloaded) / timeElapsed` exactly as
written in the progress loop (`downloader.go`): the division is NOT guarded
against `timeElapsed <= 0`. -/
def downloadSpeedOf (bytesDownloaded : ℤ) (timeElapsed : ℚ) : GoFloat :=
  goDiv (bytesDownloaded : ℚ) timeElapsed

/-! ## Paths: `path/filepath.Join` on Unix (two arguments)

`filepath.Join(a, b)` joins the non-empty elements with `/` and runs the
result through `Clean`.  `Clean` is implemented here on the list of
slash-separated components (the lexical algorithm of Go's `path.Clean` for
`/`-separated paths): drop empty and `.` components, resolve `..` against a
preceding component, keep leading `..`s of a relative path, drop `..`s at
the root of a rooted path. -/

/-- Split a character list at `/` into path components. -/
def splitSlashAux (cur : List Char) : List Char → List String
  | [] => [String.mk cur.reverse]
  | c :: rest =>
    if c = '/' then String.mk cur.reverse :: splitSlashAux [] rest
    else splitSlashAux (c :: cur) rest

/-- Whether a path string starts with the separator `/`. -/
def isRooted (path : String) : Bool :=
  match path.data with
  | [] => false
  | c :: _ => c = '/'

/-- The component pass of Go's `path.Clean`: `acc` holds the already-output
components in reverse. -/
def cleanLoop (acc : List String) (rooted : Bool) : List String → List String
  | [] => acc.reverse
  | c :: rest =>
    if c = "" ∨ c = "." then cleanLoop acc rooted rest
    else if c = ".." then
      match acc with
      | [] =>
        if rooted then cleanLoop [] rooted rest
        else cleanLoop [".."] rooted rest
      | a :: as =>
        if a = ".." then cleanLoop (".." :: acc) rooted rest
        else cleanLoop as rooted rest
    else cleanLoop (c :: acc) rooted rest

/-- Join components with `/`. -/
def joinSlash : List String → String
  | [] => ""
  | [s] => s
  | s :: rest => s ++ "/" ++ joinSlash rest

/-- Go's `path.Clean` (Unix `filepath.Clean`) on the lexical content the
repository feeds it. -/
def goPathClean (path : String) : String :=
  if path = "" then "."
  else
    let rooted := isRooted path
    let cleaned := cleanLoop [] rooted (splitSlashAux [] path.data)
    let body := joinSlash cleaned
    if rooted then "/" ++ body
    else if body = "" then "." else body

/-- Go's `filepath.Join(a, b)` on Unix: the elements from the first
non-empty one are joined with `/` and cleaned; all-empty input gives `""`. -/
def goFilepathJoin (a b : String) : String :=
  if a ≠ "" then goPathClean (a ++ "/" ++ b)
  else if b ≠ "" then goPathClean b
  else ""

/-! ## Data model -/

/-- The Go `error` values produced by `downloader.go`:
`fmt.Errorf("<msg>: %w", err)` wrapping, `errors.New("<msg>")`, and
`ctx.Err()` (the cancellation error of the context). -/
inductive GoError
  | wrapped (msg inner : String)
  | simple (msg : String)
  | ctxErr
deriving DecidableEq

/-- Structure `ProgressInfo` (`downloader.go`): the snapshot handed to the progress
callback. -/
structure ProgressInfo where
  PercentDone : GoFloat
  BytesCompleted : ℤ
  TotalBytes : ℤ
  PeersConnected : ℕ
  DownloadSpeed : GoFloat
deriving DecidableEq

/-- Structure `TorrentDownloader` (`downloader.go`): the torrent client itself is
external state; the field the embedded logic reads is `downloadPath`. -/
structure TorrentDownloader where
  downloadPath : String
deriving DecidableEq

/-- One entry of `info.Files` (`metainfo.FileInfo`): relative path and
length.  Only the *number* of entries is inspected by the code. -/
structure FileEntry where
  path : List String
  length : ℤ
deriving DecidableEq

/-- The metadata (`t.Info()`): name and multi-file layout. -/
structure TorrentInfo where
  name : String
  files : List FileEntry
deriving DecidableEq

/-- The live transport reads performed at one ticker tick:
`time.Now()`, `t.BytesCompleted()`, `t.Length()`, `len(t.PeerConns())`,
`t.Complete().Bool()`.  Time is in seconds. -/
structure TorrentReading where
  time : ℚ
  bytesCompleted : ℤ
  length : ℤ
  peerConns : ℕ
  complete : Bool
deriving DecidableEq

/-- Which case of the metadata `select` fires first: `<-t.GotInfo()`,
`<-ctx.Done()`, or `<-time.After(2 * time.Minute)`.  These are exactly the
three signals the code races. -/
inductive MetaSignal
  | gotInfo
  | ctxDone
  | deadline
deriving DecidableEq

/-- The deadline of the metadata wait, `2 * time.Minute`, in seconds. -/
def metadataDeadlineSeconds : ℕ := 2 * 60

/-- Which case of the progress-loop `select` fires first at one iteration:
the ticker (with the transport reads of that instant) or `<-ctx.Done()`. -/
inductive TickCase
  | ticker (r : TorrentReading)
  | ctxDone
deriving DecidableEq

/-- Environment of one `DownloadFromMagnet` call: the behaviour of the
external transport and clock.  `addMagnetErr` is the error of
`client.AddMagnet` (if any), `metaSignal` the winner of the metadata race,
`info` the resolved metadata, `startTime` the `time.Now()` taken before the
loop, and `ticks` the (finite prefix of the) loop-iteration script. -/
structure FetchEnv where
  addMagnetErr : Option String
  metaSignal : MetaSignal
  info : TorrentInfo
  startTime : ℚ
  ticks : List TickCase
deriving DecidableEq

/-- Observable side effects of `DownloadFromMagnet`.  `dropHandle` models a
release of the per-request swarm handle (`t.Drop()` / the transport's
`close(handle)` capability); it is part of the alphabet so that theorems can
speak about handle closure — the function as written never performs it. -/
inductive Event
  | downloadAll
  | progressCallback (p : ProgressInfo)
  | dropHandle
deriving DecidableEq

/-- The Go return pair `(string, error)` of `DownloadFromMagnet`. -/
abbrev Outcome := String × Option GoError

/-- One observable item of a run: a side effect, or the terminal return. -/
inductive Item
  | ev (e : Event)
  | out (o : Outcome)
deriving DecidableEq

/-! ## The embedded operations -/

/-- The `for { select { ... } }` progress loop of `DownloadFromMagnet`,
replayed over the tick script.  State carried between iterations:
`lastBytes` and `lastTime`.  An exhausted script means the download is still
in flight (the Go loop would keep waiting); a `ctxDone` tick returns
`("", ctx.Err())`; a ticker tick recomputes progress exactly as the source
does, invokes the callback when one is installed (`progressCallback != nil`),
and on `t.Complete().Bool()` returns the joined path — the same
`filepath.Join(td.downloadPath, info.Name)` in the single-file
(`len(info.Files) == 0`) and the multi-file branch. -/
def transferLoop (dlPath : String) (info : TorrentInfo) (hasCb : Bool) :
    ℤ → ℚ → List TickCase → List Item
  | _, _, [] => []
  | lastBytes, lastTime, tc :: rest =>
    match tc with
    | TickCase.ctxDone => [Item.out ("", some GoError.ctxErr)]
    | TickCase.ticker r =>
      let currentTime := r.time
      let bytesCompleted := r.bytesCompleted
      let totalBytes := r.length
      let percentDone := percentDoneOf bytesCompleted totalBytes
      let timeElapsed := currentTime - lastTime
      let bytesDownloaded := bytesCompleted - lastBytes
      let downloadSpeed := downloadSpeedOf bytesDownloaded timeElapsed
      let cbItems :=
        if hasCb then
          [Item.ev (Event.progressCallback
            ⟨percentDone, bytesCompleted, totalBytes, r.peerConns, downloadSpeed⟩)]
        else []
      if r.complete then
        if info.files.length = 0 then
          cbItems ++ [Item.out (goFilepathJoin dlPath info.name, none)]
        else
          cbItems ++ [Item.out (goFilepathJoin dlPath info.name, none)]
      else
        cbItems ++ transferLoop dlPath info hasCb bytesCompleted currentTime rest

/-- Function `DownloadFromMagnet` (`downloader.go`), replayed over an environment:
`AddMagnet` failure returns the wrapped error; the metadata `select` races
`GotInfo`, `ctx.Done()` and the 2-minute `time.After`; on `GotInfo` the code
calls `t.DownloadAll()` and enters the progress loop.  `hasCb` is whether
`progressCallback != nil`. -/
def DownloadFromMagnet (td : TorrentDownloader) (env : FetchEnv) (hasCb : Bool) :
    List Item :=
  match env.addMagnetErr with
  | some e => [Item.out ("", some (GoError.wrapped "failed to add magnet" e))]
  | none =>
    match env.metaSignal with
    | MetaSignal.gotInfo =>
        Item.ev Event.downloadAll ::
          transferLoop td.downloadPath env.info hasCb 0 env.startTime env.ticks
    | MetaSignal.ctxDone => [Item.out ("", some GoError.ctxErr)]
    | MetaSignal.deadline =>
        [Item.out ("", some (GoError.simple "timeout waiting for torrent metadata"))]

/-- The side effects of a run, in order. -/
def runEvents (l : List Item) : List Event :=
  l.filterMap fun i =>
    match i with
    | Item.ev e => some e
    | Item.out _ => none

/-- The terminal outcomes occurring in a run, in order. -/
def runOutcomes (l : List Item) : List Outcome :=
  l.filterMap fun i =>
    match i with
    | Item.out o => some o
    | Item.ev _ => none

/-- The first terminal outcome of a run, if the run terminated. -/
def runOutcome (l : List Item) : Option Outcome :=
  (runOutcomes l).head?

/-- Keeps every item except progress-callback invocations: the items a run
with a nil `progressCallback` performs, compared with the same run with a
callback installed. -/
def keepNonCallback : Item → Bool
  | Item.ev (Event.progressCallback _) => false
  | _ => true

/-! ## `NewTorrentDownloader` -/

/-- Observable steps of `NewTorrentDownloader`: the `os.MkdirAll` call and
the `torrent.NewClient` call. -/
inductive InitEvent
  | mkdirAllEv
  | newClientEv
deriving DecidableEq

/-- Environment of one `NewTorrentDownloader` call: the error (if any)
returned by `os.MkdirAll` and by `torrent.NewClient`. -/
structure InitEnv where
  mkdirErr : Option String
  clientErr : Option String
deriving DecidableEq

/-- Function `NewTorrentDownloader` (`downloader.go`): `os.MkdirAll(downloadPath,
0755)` first — on error, return the wrapped error without creating a
client; then `torrent.NewClient(cfg)` — on error, the wrapped error;
otherwise the constructed `TorrentDownloader`. -/
def NewTorrentDownloader (downloadPath : String) (env : InitEnv) :
    List InitEvent × Except GoError TorrentDownloader :=
  match env.mkdirErr with
  | some e =>
      ([InitEvent.mkdirAllEv],
        Except.error (GoError.wrapped "failed to create download directory" e))
  | none =>
    match env.clientErr with
    | some e =>
        ([InitEvent.mkdirAllEv, InitEvent.newClientEv],
          Except.error (GoError.wrapped "failed to create torrent client" e))
    | none =>
        ([InitEvent.mkdirAllEv, InitEvent.newClientEv],
          Except.ok ⟨downloadPath⟩)

/-! ## `os.MkdirAll` semantics on an abstract filesystem

Modelled from the Go standard-library contract of `os.MkdirAll` (the
repository calls it, it is not repository code): it creates the directory
named by the path *along with any necessary parents*, and succeeds doing
nothing when the directory already exists.  A filesystem is the list of
existing directories, a directory a list of name components. -/

/-- All ancestors of a directory path, itself included: the non-empty
component prefixes. -/
def ancestorDirs (p : List String) : List (List String) :=
  (List.range p.length).map fun i => p.take (i + 1)

/-- Effect of `os.MkdirAll p` on the set of existing directories: every
missing ancestor of `p` (and `p` itself) is created. -/
def mkdirAllFS (p : List String) (fs : List (List String)) : List (List String) :=
  fs ++ (ancestorDirs p).filter fun d => decide (¬ d ∈ fs)

/-! ## Concrete environments used as witnesses and counterexamples -/

/-- A downloader whose destination directory is `/downloads`. -/
def td0 : TorrentDownloader := ⟨"/downloads"⟩

/-- Metadata resolves; the first tick reads `Length() = 0` (zero-length
torrent) and `BytesCompleted() = 0`. -/
def envZeroTotal : FetchEnv :=
  ⟨none, MetaSignal.gotInfo, ⟨"f", []⟩, 0,
    [TickCase.ticker ⟨1, 0, 0, 0, false⟩]⟩

/-- Two ticks at the same wall-clock instant: the second has
`timeElapsed = 0` and a positive byte delta. -/
def envZeroDelta : FetchEnv :=
  ⟨none, MetaSignal.gotInfo, ⟨"f", []⟩, 0,
    [TickCase.ticker ⟨1, 100, 1000, 0, false⟩,
     TickCase.ticker ⟨1, 105, 1000, 0, false⟩]⟩

/-- Metadata never resolves: the 2-minute deadline fires first. -/
def envDeadline : FetchEnv :=
  ⟨none, MetaSignal.deadline, ⟨"f", []⟩, 0, []⟩

/-- The caller cancels while the metadata wait is pending. -/
def envCancelled : FetchEnv :=
  ⟨none, MetaSignal.ctxDone, ⟨"f", []⟩, 0, []⟩

/-- A single-file download of `ubuntu.iso` completing on the first tick. -/
def envSuccess : FetchEnv :=
  ⟨none, MetaSignal.gotInfo, ⟨"ubuntu.iso", []⟩, 0,
    [TickCase.ticker ⟨1, 1000, 1000, 3, true⟩]⟩

/-! ## Helper lemmas on runs -/

lemma mem_runEvents (e : Event) (l : List Item) : e ∈ runEvents l ↔ Item.ev e ∈ l := by
  unfold runEvents
  rw [List.mem_filterMap]
  constructor
  · rintro ⟨i, hi, hfi⟩
    cases i with
    | ev e' =>
      simp only [Option.some.injEq] at hfi
      subst hfi
      exact hi
    | out o => simp at hfi
  · intro h
    exact ⟨Item.ev e, h, rfl⟩

lemma runOutcomes_append (l₁ l₂ : List Item) :
    runOutcomes (l₁ ++ l₂) = runOutcomes l₁ ++ runOutcomes l₂ := by
  simp [runOutcomes, List.filterMap_append]

lemma runOutcomes_map_ev (evs : List Event) : runOutcomes (evs.map Item.ev) = [] := by
  induction evs with
  | nil => simp [runOutcomes]
  | cons e rest ih => simp [runOutcomes, List.filterMap_cons, ih]

lemma runOutcome_cons_ev (e : Event) (l : List Item) :
    runOutcome (Item.ev e :: l) = runOutcome l := by
  simp [runOutcome, runOutcomes, List.filterMap_cons]

lemma runOutcome_cons_out (o : Outcome) (l : List Item) :
    runOutcome (Item.out o :: l) = some o := by
  simp [runOutcome, runOutcomes, List.filterMap_cons]

lemma transferLoop_nil (d : String) (i : TorrentInfo) (c : Bool) (lb : ℤ) (lt : ℚ) :
    transferLoop d i c lb lt [] = [] := rfl

lemma transferLoop_cons_ctxDone (d : String) (i : TorrentInfo) (c : Bool) (lb : ℤ)
    (lt : ℚ) (rest : List TickCase) :
    transferLoop d i c lb lt (TickCase.ctxDone :: rest) =
      [Item.out ("", some GoError.ctxErr)] := rfl

lemma transferLoop_cons_ticker (d : String) (i : TorrentInfo) (c : Bool) (lb : ℤ)
    (lt : ℚ) (r : TorrentReading) (rest : List TickCase) :
    transferLoop d i c lb lt (TickCase.ticker r :: rest) =
      (if c then
        [Item.ev (Event.progressCallback
          ⟨percentDoneOf r.bytesCompleted r.length, r.bytesCompleted, r.length,
           r.peerConns, downloadSpeedOf (r.bytesCompleted - lb) (r.time - lt)⟩)]
       else []) ++
      (if r.complete then [Item.out (goFilepathJoin d i.name, none)]
       else transferLoop d i c r.bytesCompleted r.time rest) := by
  simp only [transferLoop]
  by_cases hcom : r.complete <;> by_cases hf : i.files.length = 0 <;> simp [hcom, hf]

lemma transferLoop_no_drop (d : String) (i : TorrentInfo) (c : Bool) :
    ∀ (ticks : List TickCase) (lb : ℤ) (lt : ℚ),
      Item.ev Event.dropHandle ∉ transferLoop d i c lb lt ticks := by
  intro ticks
  induction ticks with
  | nil => intro lb lt; simp [transferLoop_nil]
  | cons tc rest ih =>
    intro lb lt
    match tc with
    | TickCase.ctxDone => simp [transferLoop_cons_ctxDone]
    | TickCase.ticker r =>
      rw [transferLoop_cons_ticker]
      simp only [List.mem_append, not_or]
      constructor
      · split <;> simp
      · split
        · simp
        · exact ih _ _

lemma shape_append_evs (pre : List Event) (l : List Item)
    (h : (∃ evs : List Event, l = evs.map Item.ev) ∨
      (∃ (evs : List Event) (o : Outcome), l = evs.map Item.ev ++ [Item.out o])) :
    (∃ evs : List Event, pre.map Item.ev ++ l = evs.map Item.ev) ∨
      (∃ (evs : List Event) (o : Outcome),
        pre.map Item.ev ++ l = evs.map Item.ev ++ [Item.out o]) := by
  rcases h with ⟨evs, rfl⟩ | ⟨evs, o, rfl⟩
  · exact Or.inl ⟨pre ++ evs, by simp⟩
  · exact Or.inr ⟨pre ++ evs, o, by simp⟩

lemma transferLoop_shape (d : String) (i : TorrentInfo) (c : Bool) :
    ∀ (ticks : List TickCase) (lb : ℤ) (lt : ℚ),
      (∃ evs : List Event, transferLoop d i c lb lt ticks = evs.map Item.ev) ∨
      (∃ (evs : List Event) (o : Outcome),
        transferLoop d i c lb lt ticks = evs.map Item.ev ++ [Item.out o]) := by
  intro ticks
  induction ticks with
  | nil => intro lb lt; exact Or.inl ⟨[], rfl⟩
  | cons tc rest ih =>
    intro lb lt
    match tc with
    | TickCase.ctxDone =>
      refine Or.inr ⟨[], ("", some GoError.ctxErr), ?_⟩
      simp [transferLoop_cons_ctxDone]
    | TickCase.ticker r =>
      rw [transferLoop_cons_ticker]
      have hcb : (if c then
          [Item.ev (Event.progressCallback
            ⟨percentDoneOf r.bytesCompleted r.length, r.bytesCompleted, r.length,
             r.peerConns, downloadSpeedOf (r.bytesCompleted - lb) (r.time - lt)⟩)]
         else []) =
        (if c then
          [Event.progressCallback
            ⟨percentDoneOf r.bytesCompleted r.length, r.bytesCompleted, r.length,
             r.peerConns, downloadSpeedOf (r.bytesCompleted - lb) (r.time - lt)⟩]
         else ([] : List Event)).map Item.ev := by
        cases c <;> simp
      rw [hcb]
      apply shape_append_evs
      by_cases hcom : r.complete
      · rw [if_pos hcom]
        exact Or.inr ⟨[], (goFilepathJoin d i.name, none), by simp⟩
      · rw [if_neg hcom]
        exact ih _ _

lemma runOutcome_evs_append (evs : List Event) (l : List Item) :
    runOutcome (evs.map Item.ev ++ l) = runOutcome l := by
  simp [runOutcome, runOutcomes_append, runOutcomes_map_ev]

lemma transferLoop_outcome (d : String) (i : TorrentInfo) (c : Bool) :
    ∀ (ticks : List TickCase) (lb : ℤ) (lt : ℚ) (o : Outcome),
      runOutcome (transferLoop d i c lb lt ticks) = some o →
      o = ("", some GoError.ctxErr) ∨ o = (goFilepathJoin d i.name, none) := by
  intro ticks
  induction ticks with
  | nil =>
    intro lb lt o h
    simp [transferLoop_nil, runOutcome, runOutcomes] at h
  | cons tc rest ih =>
    intro lb lt o h
    match tc with
    | TickCase.ctxDone =>
      rw [transferLoop_cons_ctxDone, runOutcome_cons_out] at h
      exact Or.inl (Option.some.inj h).symm
    | TickCase.ticker r =>
      rw [transferLoop_cons_ticker] at h
      have hcb : (if c then
          [Item.ev (Event.progressCallback
            ⟨percentDoneOf r.bytesCompleted r.length, r.bytesCompleted, r.length,
             r.peerConns, downloadSpeedOf (r.bytesCompleted - lb) (r.time - lt)⟩)]
         else []) =
        (if c then
          [Event.progressCallback
            ⟨percentDoneOf r.bytesCompleted r.length, r.bytesCompleted, r.length,
             r.peerConns, downloadSpeedOf (r.bytesCompleted - lb) (r.time - lt)⟩]
         else ([] : List Event)).map Item.ev := by
        cases c <;> simp
      rw [hcb, runOutcome_evs_append] at h
      by_cases hcom : r.complete
      · rw [if_pos hcom, runOutcome_cons_out] at h
        exact Or.inr (Option.some.inj h).symm
      · rw [if_neg hcom] at h
        exact ih _ _ _ h

lemma transferLoop_no_cb_filter (d : String) (i : TorrentInfo) :
    ∀ (ticks : List TickCase) (lb : ℤ) (lt : ℚ),
      transferLoop d i false lb lt ticks =
        (transferLoop d i true lb lt ticks).filter keepNonCallback := by
  intro ticks
  induction ticks with
  | nil => intro lb lt; simp [transferLoop_nil]
  | cons tc rest ih =>
    intro lb lt
    match tc with
    | TickCase.ctxDone => simp [transferLoop_cons_ctxDone, keepNonCallback]
    | TickCase.ticker r =>
      rw [transferLoop_cons_ticker, transferLoop_cons_ticker]
      rw [if_pos rfl, if_neg Bool.false_ne_true]
      rw [List.filter_append]
      by_cases hcom : r.complete
      · rw [if_pos hcom, if_pos hcom]
        simp [keepNonCallback]
      · rw [if_neg hcom, if_neg hcom]
        simp [keepNonCallback]
        exact ih _ _

lemma runOutcomes_filter_keep (l : List Item) :
    runOutcomes (l.filter keepNonCallback) = runOutcomes l := by
  induction l with
  | nil => simp
  | cons i rest ih =>
    match i with
    | Item.ev Event.downloadAll =>
        simp [keepNonCallback, runOutcomes, List.filterMap_cons] at ih ⊢
        exact ih
    | Item.ev (Event.progressCallback p) =>
        simp [keepNonCallback, runOutcomes, List.filterMap_cons] at ih ⊢
        exact ih
    | Item.ev Event.dropHandle =>
        simp [keepNonCallback, runOutcomes, List.filterMap_cons] at ih ⊢
        exact ih
    | Item.out o =>
        simp [keepNonCallback, runOutcomes, List.filterMap_cons] at ih ⊢
        exact ih

lemma mem_mkdirAllFS (p d : List String) (fs : List (List String)) :
    d ∈ mkdirAllFS p fs ↔ d ∈ fs ∨ d ∈ ancestorDirs p := by
  simp only [mkdirAllFS, List.mem_append, List.mem_filter, decide_eq_true_eq]
  tauto

lemma self_mem_ancestorDirs (p : List String) (hp : p ≠ []) :
    p ∈ ancestorDirs p := by
  have hlen : 0 < p.length := List.length_pos.mpr hp
  refine List.mem_map.mpr ⟨p.length - 1, ?_, ?_⟩
  · exact List.mem_range.mpr (by omega)
  · rw [Nat.sub_add_cancel hlen]
    exact List.take_length p

/-- C1: on every terminal exit of `DownloadFromMagnet` (success, join error,
metadata timeout, or cancellation) the swarm handle is NOT closed before the
operation returns: the run never contains a close/`Drop` of the torrent
handle — the source has no such call on any path, so the handle stays
registered with the client.  (This refutes the claim as stated: the spec
requires closure on every terminal transition and calls leakage a defect,
so this is a bug in the code.) -/
theorem DownloadFromMagnet_never_closes_handle (td : TorrentDownloader)
    (env : FetchEnv) (hasCb : Bool) :
    Event.dropHandle ∉ runEvents (DownloadFromMagnet td env hasCb) := by
  rw [mem_runEvents]
  obtain ⟨ame, ms, info, st, ticks⟩ := env
  cases ame with
  | some e => simp [DownloadFromMagnet]
  | none =>
    cases ms with
    | gotInfo =>
      simp only [DownloadFromMagnet, List.mem_cons]
      rintro (h | h)
      · simp at h
      · exact transferLoop_no_drop _ _ _ _ _ _ h
    | ctxDone => simp [DownloadFromMagnet]
    | deadline => simp [DownloadFromMagnet]

/-- C4: every run of `DownloadFromMagnet` is a list of side effects
optionally followed by a single terminal outcome: either the (finite prefix
of the) run is side effects only — the download still in flight — or it is
side effects followed by exactly one `(path, err)` return, placed last, so
the progress sink is invoked zero or more times before the outcome and
never after it, and at most one outcome is ever produced. -/
theorem DownloadFromMagnet_single_outcome (td : TorrentDownloader) (env : FetchEnv)
    (hasCb : Bool) :
    ((∃ evs : List Event, DownloadFromMagnet td env hasCb = evs.map Item.ev) ∨
      (∃ (evs : List Event) (o : Outcome),
        DownloadFromMagnet td env hasCb = evs.map Item.ev ++ [Item.out o])) ∧
    (runOutcomes (DownloadFromMagnet td env hasCb)).length ≤ 1 := by
  have hshape :
      (∃ evs : List Event, DownloadFromMagnet td env hasCb = evs.map Item.ev) ∨
      (∃ (evs : List Event) (o : Outcome),
        DownloadFromMagnet td env hasCb = evs.map Item.ev ++ [Item.out o]) := by
    obtain ⟨ame, ms, info, st, ticks⟩ := env
    cases ame with
    | some e =>
      exact Or.inr ⟨[], ("", some (GoError.wrapped "failed to add magnet" e)), rfl⟩
    | none =>
      cases ms with
      | gotInfo =>
        have h := shape_append_evs [Event.downloadAll] _
          (transferLoop_shape td.downloadPath info hasCb ticks 0 st)
        simpa [DownloadFromMagnet] using h
      | ctxDone => exact Or.inr ⟨[], ("", some GoError.ctxErr), rfl⟩
      | deadline =>
        exact Or.inr
          ⟨[], ("", some (GoError.simple "timeout waiting for torrent metadata")), rfl⟩
  refine ⟨hshape, ?_⟩
  rcases hshape with ⟨evs, he⟩ | ⟨evs, o, he⟩
  · rw [he, runOutcomes_map_ev]; simp
  · rw [he, runOutcomes_append, runOutcomes_map_ev]
    simp [runOutcomes]

/-- C5: whenever `DownloadFromMagnet` terminates successfully (outcome
`(p, nil error)`), the resolved path `p` is
`filepath.Join(td.downloadPath, info.Name)` — the same joined path in the
single-file (`len(info.Files) == 0`) and the multi-file branch, regardless
of the number of inner files. -/
theorem DownloadFromMagnet_success_path (td : TorrentDownloader) (env : FetchEnv)
    (hasCb : Bool) (p : String)
    (h : runOutcome (DownloadFromMagnet td env hasCb) = some (p, none)) :
    p = goFilepathJoin td.downloadPath env.info.name := by
  obtain ⟨ame, ms, info, st, ticks⟩ := env
  cases ame with
  | some e => simp [DownloadFromMagnet, runOutcome_cons_out] at h
  | none =>
    cases ms with
    | gotInfo =>
      simp only [DownloadFromMagnet] at h
      rw [runOutcome_cons_ev] at h
      rcases transferLoop_outcome _ _ _ _ _ _ _ h with h1 | h2
      · simp [Prod.ext_iff] at h1
      · simp only [Prod.mk.injEq] at h2
        exact h2.1
    | ctxDone => simp [DownloadFromMagnet, runOutcome_cons_out] at h
    | deadline => simp [DownloadFromMagnet, runOutcome_cons_out] at h

/-- C10: whenever `DownloadFromMagnet` terminates with a non-nil error
(failed magnet add, metadata timeout, or context cancellation at any
point), the returned path is the empty string; a non-empty path therefore
only accompanies a nil error. -/
theorem DownloadFromMagnet_error_empty_path (td : TorrentDownloader) (env : FetchEnv)
    (hasCb : Bool) (p : String) (e : GoError)
    (h : runOutcome (DownloadFromMagnet td env hasCb) = some (p, some e)) :
    p = "" := by
  obtain ⟨ame, ms, info, st, ticks⟩ := env
  cases ame with
  | some e' =>
    simp [DownloadFromMagnet, runOutcome_cons_out, Prod.ext_iff] at h
    exact h.1.symm
  | none =>
    cases ms with
    | gotInfo =>
      simp only [DownloadFromMagnet] at h
      rw [runOutcome_cons_ev] at h
      rcases transferLoop_outcome _ _ _ _ _ _ _ h with h1 | h2
      · simp only [Prod.mk.injEq] at h1
        exact h1.1
      · simp [Prod.ext_iff] at h2
    | ctxDone =>
      simp [DownloadFromMagnet, runOutcome_cons_out, Prod.ext_iff] at h
      exact h.1.symm
    | deadline =>
      simp [DownloadFromMagnet, runOutcome_cons_out, Prod.ext_iff] at h
      exact h.1.symm

/-- C9: running `DownloadFromMagnet` with a nil progress callback is safe:
the run performs exactly the items of the run with a callback installed
minus the callback invocations (the nil check guards every invocation), so
no callback is ever invoked and the terminal outcome is identical. -/
theorem DownloadFromMagnet_nil_callback_safe (td : TorrentDownloader) (env : FetchEnv) :
    DownloadFromMagnet td env false =
      (DownloadFromMagnet td env true).filter keepNonCallback ∧
    (∀ p : ProgressInfo,
      Event.progressCallback p ∉ runEvents (DownloadFromMagnet td env false)) ∧
    runOutcome (DownloadFromMagnet td env false) =
      runOutcome (DownloadFromMagnet td env true) := by
  have hfil : DownloadFromMagnet td env false =
      (DownloadFromMagnet td env true).filter keepNonCallback := by
    obtain ⟨ame, ms, info, st, ticks⟩ := env
    cases ame with
    | some e => simp [DownloadFromMagnet, keepNonCallback]
    | none =>
      cases ms with
      | gotInfo =>
        simp only [DownloadFromMagnet, List.filter_cons]
        simp [keepNonCallback, transferLoop_no_cb_filter]
      | ctxDone => simp [DownloadFromMagnet, keepNonCallback]
      | deadline => simp [DownloadFromMagnet, keepNonCallback]
  refine ⟨hfil, ?_, ?_⟩
  · intro p hp
    rw [mem_runEvents, hfil] at hp
    have := List.of_mem_filter hp
    simp [keepNonCallback] at this
  · rw [hfil]
    simp [runOutcome, runOutcomes_filter_keep]

/-- C6: the metadata wait races exactly the three signals `GotInfo`,
`ctx.Done()` and the fixed 2-minute (`120`-second) deadline; when the
deadline fires first the whole run is the single metadata-timeout error
return, and when cancellation fires first it is the single `ctx.Err()`
return — in both failure cases no `DownloadAll` is issued and no progress
tick occurs. -/
theorem metadata_wait_races_three_signals (td : TorrentDownloader) (env : FetchEnv)
    (hasCb : Bool) (hadd : env.addMagnetErr = none) :
    metadataDeadlineSeconds = 120 ∧
    (∀ s : MetaSignal,
      s = MetaSignal.gotInfo ∨ s = MetaSignal.ctxDone ∨ s = MetaSignal.deadline) ∧
    (env.metaSignal = MetaSignal.deadline →
      DownloadFromMagnet td env hasCb =
        [Item.out ("", some (GoError.simple "timeout waiting for torrent metadata"))]) ∧
    (env.metaSignal = MetaSignal.ctxDone →
      DownloadFromMagnet td env hasCb = [Item.out ("", some GoError.ctxErr)]) := by
  obtain ⟨ame, ms, info, st, ticks⟩ := env
  simp only at hadd
  refine ⟨rfl, ?_, ?_, ?_⟩
  · intro s; cases s <;> simp
  · intro hms
    simp only at hms
    subst hadd; subst hms
    simp [DownloadFromMagnet]
  · intro hms
    simp only at hms
    subst hadd; subst hms
    simp [DownloadFromMagnet]

/-- Witness for C6 at a concrete environment: the deadline fires first and
the run is exactly the metadata-timeout return. -/
theorem metadata_wait_races_three_signals_witness :
    envDeadline.addMagnetErr = none ∧
    DownloadFromMagnet td0 envDeadline true =
      [Item.out ("", some (GoError.simple "timeout waiting for torrent metadata"))] :=
  ⟨rfl, (metadata_wait_races_three_signals td0 envDeadline true rfl).2.2.1 rfl⟩

/-- Witness for C5 at a concrete environment: a single-file `ubuntu.iso`
fetch into `/downloads` resolves to `/downloads/ubuntu.iso`. -/
theorem DownloadFromMagnet_success_path_witness :
    runOutcome (DownloadFromMagnet td0 envSuccess true) =
      some ("/downloads/ubuntu.iso", none) ∧
    "/downloads/ubuntu.iso" = goFilepathJoin "/downloads" "ubuntu.iso" := by
  have hj : goFilepathJoin "/downloads" "ubuntu.iso" = "/downloads/ubuntu.iso" := by
    decide
  have h : runOutcome (DownloadFromMagnet td0 envSuccess true) =
      some ("/downloads/ubuntu.iso", none) := by
    simp [DownloadFromMagnet, td0, envSuccess, transferLoop, runOutcome, runOutcomes,
      List.filterMap_cons, hj]
  exact ⟨h, DownloadFromMagnet_success_path td0 envSuccess true _ h⟩

/-- Witness for C10 at a concrete environment: a cancelled fetch returns
the empty path together with `ctx.Err()`. -/
theorem DownloadFromMagnet_error_empty_path_witness :
    runOutcome (DownloadFromMagnet td0 envCancelled true) =
      some ("", some GoError.ctxErr) ∧ ("" : String) = "" := by
  have h : runOutcome (DownloadFromMagnet td0 envCancelled true) =
      some ("", some GoError.ctxErr) := by
    simp [DownloadFromMagnet, td0, envCancelled, runOutcome, runOutcomes,
      List.filterMap_cons]
  exact ⟨h, DownloadFromMagnet_error_empty_path td0 envCancelled true "" GoError.ctxErr h⟩

/-- C2 counterexample: on a tick with `t.Length() = 0` the emitted
snapshot's `PercentDone` is NaN, not 0 — the division in the source is not
guarded against a zero denominator, refuting the claim as stated. -/
theorem percent_zero_total_not_reported_zero :
    runEvents (DownloadFromMagnet td0 envZeroTotal true) =
      [Event.downloadAll,
       Event.progressCallback ⟨GoFloat.nan, 0, 0, 0, GoFloat.finite 0⟩] ∧
    GoFloat.nan ≠ GoFloat.finite 0 := by
  constructor
  · simp [runEvents, DownloadFromMagnet, envZeroTotal, transferLoop, td0,
      percentDoneOf, downloadSpeedOf, goDiv, goMulPos]
  · simp

/-- C2 amended: the `percentDone` division is unguarded; when
`totalLength = 0` the computation does not fault (Go float division by zero
yields NaN/Inf, never a crash) but it reports NaN when `bytesCompleted = 0`
and +Inf when `bytesCompleted > 0`, not 0%. -/
theorem percentDone_unguarded_zero_total :
    percentDoneOf 0 0 = GoFloat.nan ∧
    ∀ b : ℤ, 0 < b → percentDoneOf b 0 = GoFloat.posInf := by
  constructor
  · simp [percentDoneOf, goDiv, goMulPos]
  · intro b hb
    have hb' : (0 : ℚ) < (b : ℚ) := by exact_mod_cast hb
    simp [percentDoneOf, goDiv, goMulPos, hb'.ne', hb']

/-- Witness for the amended C2 at concrete byte counts 0 and 5. -/
theorem percentDone_unguarded_zero_total_witness :
    percentDoneOf 0 0 = GoFloat.nan ∧ percentDoneOf 5 0 = GoFloat.posInf :=
  ⟨percentDone_unguarded_zero_total.1,
   percentDone_unguarded_zero_total.2 5 (by norm_num)⟩

/-- C3 counterexample: a second tick at the same wall-clock instant
(`deltaTime = 0`) with 5 new bytes reports rate +Inf — the rate update is
not skipped and the previous rate (1000 B over 1 s on the first tick,
i.e. 100 B/s here) is not retained, refuting the claim as stated. -/
theorem rate_zero_dt_not_retained :
    runEvents (DownloadFromMagnet td0 envZeroDelta true) =
      [Event.downloadAll,
       Event.progressCallback
         ⟨GoFloat.finite 10, 100, 1000, 0, GoFloat.finite 100⟩,
       Event.progressCallback
         ⟨GoFloat.finite (21 / 2), 105, 1000, 0, GoFloat.posInf⟩] ∧
    GoFloat.posInf ≠ GoFloat.finite 100 := by
  constructor
  · simp [runEvents, DownloadFromMagnet, envZeroDelta, transferLoop, td0,
      percentDoneOf, downloadSpeedOf, goDiv, goMulPos]
    norm_num
  · simp

/-- C3 amended: the reported rate is always `deltaBytes / deltaTime`,
unguarded: for `deltaTime > 0` it is the finite quotient (0 when
`deltaBytes = 0`), while for `deltaTime = 0` it is +Inf for a positive
delta and NaN for a zero delta, rather than a retained previous rate. -/
theorem rate_formula_unguarded (db : ℤ) (dt : ℚ) :
    (0 < dt → downloadSpeedOf db dt = GoFloat.finite ((db : ℚ) / dt)) ∧
    (0 < dt → db = 0 → downloadSpeedOf db dt = GoFloat.finite 0) ∧
    (dt = 0 → 0 < db → downloadSpeedOf db dt = GoFloat.posInf) ∧
    (dt = 0 → db = 0 → downloadSpeedOf db dt = GoFloat.nan) := by
  refine ⟨?_, ?_, ?_, ?_⟩
  · intro ht
    simp [downloadSpeedOf, goDiv, ht.ne']
  · intro ht hdb
    subst hdb
    simp [downloadSpeedOf, goDiv, ht.ne']
  · intro ht hdb
    subst ht
    have hdb' : (0 : ℚ) < (db : ℚ) := by exact_mod_cast hdb
    simp [downloadSpeedOf, goDiv, hdb'.ne', hdb']
  · intro ht hdb
    subst ht; subst hdb
    simp [downloadSpeedOf, goDiv]

/-- Witness for the amended C3 at concrete deltas: 1000 bytes over 1 s is
1000 B/s, 0 bytes over 1 s is 0 B/s, 5 bytes over 0 s is +Inf. -/
theorem rate_formula_unguarded_witness :
    downloadSpeedOf 1000 1 = GoFloat.finite 1000 ∧
    downloadSpeedOf 0 1 = GoFloat.finite 0 ∧
    downloadSpeedOf 5 0 = GoFloat.posInf := by
  refine ⟨?_, ?_, ?_⟩
  · have h := (rate_formula_unguarded 1000 1).1 (by norm_num)
    simpa using h
  · exact (rate_formula_unguarded 0 1).2.1 (by norm_num) rfl
  · exact (rate_formula_unguarded 5 0).2.2.1 rfl (by norm_num)

/-- C7 counterexample: the snapshot emitted on a `t.Length() = 0` tick has
`PercentDone = NaN`, and `0 <= NaN` is false under Go float comparison, so
`0 <= percentDone <= 100` does not hold for every emitted snapshot,
refuting the claim as stated. -/
theorem percent_bound_fails_zero_total :
    runEvents (DownloadFromMagnet td0 envZeroTotal true) =
      [Event.downloadAll,
       Event.progressCallback ⟨GoFloat.nan, 0, 0, 0, GoFloat.finite 0⟩] ∧
    GoFloat.le (GoFloat.finite 0) GoFloat.nan = false := by
  constructor
  · simp [runEvents, DownloadFromMagnet, envZeroTotal, transferLoop, td0,
      percentDoneOf, downloadSpeedOf, goDiv, goMulPos]
  · rfl

/-- C7 amended: for every tick with `totalLength > 0` and
`0 <= bytesCompleted <= totalLength`, the computed `percentDone` satisfies
`0 <= percentDone <= 100`, and for a fixed positive `totalLength` it is
monotonically non-decreasing in `bytesCompleted` — so successive snapshots
under non-decreasing byte readings have non-decreasing percentages. -/
theorem percentDone_bounds_monotone :
    (∀ b t : ℤ, 0 < t → 0 ≤ b → b ≤ t →
      GoFloat.le (GoFloat.finite 0) (percentDoneOf b t) = true ∧
      GoFloat.le (percentDoneOf b t) (GoFloat.finite 100) = true) ∧
    (∀ b₁ b₂ t : ℤ, 0 < t → b₁ ≤ b₂ →
      GoFloat.le (percentDoneOf b₁ t) (percentDoneOf b₂ t) = true) := by
  have hval : ∀ b t : ℤ, (t : ℚ) ≠ 0 →
      percentDoneOf b t = GoFloat.finite ((b : ℚ) / (t : ℚ) * 100) := by
    intro b t ht
    simp [percentDoneOf, goDiv, goMulPos, ht]
  constructor
  · intro b t ht hb hbt
    have ht' : (0 : ℚ) < (t : ℚ) := by exact_mod_cast ht
    have hb' : (0 : ℚ) ≤ (b : ℚ) := by exact_mod_cast hb
    have hbt' : (b : ℚ) ≤ (t : ℚ) := by exact_mod_cast hbt
    rw [hval b t ht'.ne']
    constructor
    · simp only [GoFloat.le, decide_eq_true_eq]
      exact mul_nonneg (div_nonneg hb' ht'.le) (by norm_num)
    · simp only [GoFloat.le, decide_eq_true_eq]
      have h1 : (b : ℚ) / (t : ℚ) ≤ 1 := (div_le_one ht').mpr hbt'
      have h2 := mul_le_mul_of_nonneg_right h1 (by norm_num : (0 : ℚ) ≤ 100)
      simpa using h2
  · intro b₁ b₂ t ht hb
    have ht' : (0 : ℚ) < (t : ℚ) := by exact_mod_cast ht
    have hb' : (b₁ : ℚ) ≤ (b₂ : ℚ) := by exact_mod_cast hb
    rw [hval b₁ t ht'.ne', hval b₂ t ht'.ne']
    simp only [GoFloat.le, decide_eq_true_eq]
    have h1 : (b₁ : ℚ) / (t : ℚ) ≤ (b₂ : ℚ) / (t : ℚ) :=
      (div_le_div_iff_of_pos_right ht').mpr hb'
    exact mul_le_mul_of_nonneg_right h1 (by norm_num)

/-- Witness for the amended C7 at 50 and 80 of 100 bytes. -/
theorem percentDone_bounds_monotone_witness :
    (GoFloat.le (GoFloat.finite 0) (percentDoneOf 50 100) = true ∧
     GoFloat.le (percentDoneOf 50 100) (GoFloat.finite 100) = true) ∧
    GoFloat.le (percentDoneOf 50 100) (percentDoneOf 80 100) = true :=
  ⟨percentDone_bounds_monotone.1 50 100 (by norm_num) (by norm_num) (by norm_num),
   percentDone_bounds_monotone.2 50 80 100 (by norm_num) (by norm_num)⟩

/-- C8: `NewTorrentDownloader` performs `os.MkdirAll` first — before the
client is created, hence before any swarm join (joins happen only through
the client) — and its run is nothing but the mkdir step optionally followed
by client creation; if directory creation fails, construction returns the
wrapped error and no client is created; and `os.MkdirAll` creates the
directory when absent, creates all its ancestors (recursively), and is
idempotent. -/
theorem NewTorrentDownloader_mkdir_first (downloadPath : String) (env : InitEnv) :
    (NewTorrentDownloader downloadPath env).1.head? = some InitEvent.mkdirAllEv ∧
    ((NewTorrentDownloader downloadPath env).1 = [InitEvent.mkdirAllEv] ∨
      (NewTorrentDownloader downloadPath env).1 =
        [InitEvent.mkdirAllEv, InitEvent.newClientEv]) ∧
    (∀ e : String, env.mkdirErr = some e →
      (NewTorrentDownloader downloadPath env).2 =
        Except.error (GoError.wrapped "failed to create download directory" e) ∧
      InitEvent.newClientEv ∉ (NewTorrentDownloader downloadPath env).1) ∧
    (∀ (p : List String) (fs : List (List String)), p ≠ [] → p ∈ mkdirAllFS p fs) ∧
    (∀ (p d : List String) (fs : List (List String)),
      d ∈ mkdirAllFS p (mkdirAllFS p fs) ↔ d ∈ mkdirAllFS p fs) ∧
    (∀ (p d : List String) (fs : List (List String)),
      d ∈ ancestorDirs p → d ∈ mkdirAllFS p fs) := by
  obtain ⟨me, ce⟩ := env
  refine ⟨?_, ?_, ?_, ?_, ?_, ?_⟩
  · cases me with
    | some e => simp [NewTorrentDownloader]
    | none => cases ce <;> simp [NewTorrentDownloader]
  · cases me with
    | some e => simp [NewTorrentDownloader]
    | none => cases ce <;> simp [NewTorrentDownloader]
  · intro e he
    simp only at he
    subst he
    simp [NewTorrentDownloader]
  · intro p fs hp
    rw [mem_mkdirAllFS]
    exact Or.inr (self_mem_ancestorDirs p hp)
  · intro p d fs
    simp only [mem_mkdirAllFS]
    tauto
  · intro p d fs hd
    rw [mem_mkdirAllFS]
    exact Or.inr hd

/-- Witness for C8 at a concrete failing mkdir and a concrete created
directory. -/
theorem NewTorrentDownloader_mkdir_first_witness :
    (NewTorrentDownloader "/downloads" ⟨some "disk full", none⟩).2 =
      Except.error (GoError.wrapped "failed to create download directory" "disk full") ∧
    InitEvent.newClientEv ∉
      (NewTorrentDownloader "/downloads" ⟨some "disk full", none⟩).1 ∧
    ["home"] ∈ mkdirAllFS ["home"] [] :=
  ⟨((NewTorrentDownloader_mkdir_first "/downloads"
      ⟨some "disk full", none⟩).2.2.1 "disk full" rfl).1,
   ((NewTorrentDownloader_mkdir_first "/downloads"
      ⟨some "disk full", none⟩).2.2.1 "disk full" rfl).2,
   (NewTorrentDownloader_mkdir_first "/downloads"
      ⟨some "disk full", none⟩).2.2.2.1 ["home"] [] (by simp)⟩
